import Mathlib

/-!
Verification of qgrad's `qgrad/qutip.py` against its specification.

The development shallowly embeds the module's functions:
* the `Displacer` class (displacement-operator generator): its stored state
  (`evals`, `evecs` from `scipy.linalg.eigh_tridiagonal`, `t_scale`) and its
  `__call__` body, with the external eigensolver modelled by the predicate
  `Displacer.Valid` (an orthonormal eigendecomposition, ascending eigenvalues,
  of the tridiagonal matrix the constructor builds);
* `destroy` / `create` / `squeeze`, including the `jax.ops.index_update`
  call whose result the source discards and the basic format validation that
  `scipy.sparse.csr_matrix` performs on a `(data, indices, indptr)` triple;
* the shape-based branch dispatch of `fidelity` and `expect`, and the
  ket-branch fidelity formula `_fidelity_ket`.

Machine floats are modelled by exact reals/complexes.
-/

open scoped ComplexConjugate

open scoped Matrix

/-- Off-diagonal entries of the real symmetric tridiagonal matrix built by
`Displacer.__init__`: the 1-based entry `k` is `(2*(k%2) - 1) * sqrt(k)`,
from `sym = (2*(np.arange(1, n)%2) - 1) * np.sqrt(np.arange(1, n))`. -/
noncomputable def sym (k : ℕ) : ℝ := (2 * ((k % 2 : ℕ) : ℝ) - 1) * Real.sqrt k

/-- The real symmetric tridiagonal matrix with zero diagonal and off-diagonal
`sym`, as passed to `scipy.linalg.eigh_tridiagonal(np.zeros(n), sym)`. -/
noncomputable def trid (n : ℕ) : Matrix (Fin n) (Fin n) ℝ :=
  Matrix.of fun j k =>
    if j.val + 1 = k.val then sym k.val
    else if k.val + 1 = j.val then sym j.val else 0

/-- Complexification of `trid`. -/
noncomputable def tridC (n : ℕ) : Matrix (Fin n) (Fin n) ℂ :=
  (trid n).map Complex.ofReal

/-- State stored by `Displacer.__init__`: the eigenvalues and eigenvectors
returned by `scipy.linalg.eigh_tridiagonal` (the derived fields `range` and
`t_scale` are pure functions of `n` and are defined below). -/
structure Displacer (n : ℕ) where
  evals : Fin n → ℝ
  evecs : Matrix (Fin n) (Fin n) ℝ

/-- The `t_scale` field of `Displacer.__init__`:
`self.t_scale = 1j**(self.range % 2)` with `self.range = np.arange(n)`. -/
def Displacer.t_scale (n : ℕ) : Fin n → ℂ := fun k => Complex.I ^ (k.val % 2)

/-- Contract of the external call
`scipy.linalg.eigh_tridiagonal(np.zeros(n), sym)`: `evecs` has orthonormal
columns, the columns are eigenvectors of the tridiagonal matrix (equivalently
`evecs * diagonal evals * evecsᵀ` recovers it), and the eigenvalues are
returned in ascending order. -/
def Displacer.Valid {n : ℕ} (d : Displacer n) : Prop :=
  d.evecsᵀ * d.evecs = 1 ∧
  d.evecs * Matrix.diagonal d.evals * d.evecsᵀ = trid n ∧
  Monotone d.evals

/-- Complexification of the stored eigenvector matrix. -/
noncomputable def Displacer.evecsC {n : ℕ} (d : Displacer n) :
    Matrix (Fin n) (Fin n) ℂ :=
  d.evecs.map Complex.ofReal

/-- Unit phase `alpha / np.abs(alpha)` computed in `Displacer.__call__`. -/
noncomputable def Displacer.phaseU (α : ℂ) : ℂ := α / (Complex.abs α : ℝ)

/-- Diagonal `transform = self.t_scale * (alpha / np.abs(alpha))**-self.range`
of the transformation matrix in `Displacer.__call__`. -/
noncomputable def Displacer.transform (n : ℕ) (α : ℂ) : Fin n → ℂ :=
  fun k => Displacer.t_scale n k * Displacer.phaseU α ^ (-(k.val : ℤ))

/-- Row-scaled eigenvector matrix `evecs = transform[:, None] * self.evecs`
of `Displacer.__call__` (broadcasting a column against the rows is left
multiplication by the diagonal matrix of `transform`). -/
noncomputable def Displacer.scaledEvecs {n : ℕ} (d : Displacer n) (α : ℂ) :
    Matrix (Fin n) (Fin n) ℂ :=
  Matrix.diagonal (Displacer.transform n α) * d.evecsC

/-- Exponentiated diagonal `diag = np.exp(1j * np.abs(alpha) * self.evals)`
of `Displacer.__call__`. -/
noncomputable def Displacer.diagvec {n : ℕ} (d : Displacer n) (α : ℂ) :
    Fin n → ℂ :=
  fun k => Complex.exp (Complex.I * (Complex.abs α : ℝ) * (d.evals k : ℝ))

/-- Return value `np.conj(evecs) @ (diag[:, None] * evecs.T)` of
`Displacer.__call__` (again `diag[:, None] *` is left multiplication by a
diagonal matrix). -/
noncomputable def Displacer.call {n : ℕ} (d : Displacer n) (α : ℂ) :
    Matrix (Fin n) (Fin n) ℂ :=
  ((d.scaledEvecs α).map (starRingEnd ℂ)) *
    (Matrix.diagonal (d.diagvec α) * (d.scaledEvecs α)ᵀ)

/-- Errors surfaced by the Python runtime in this module. -/
inductive PyErr where
  | valueError (msg : String)
  | indexError (msg : String)
  | typeError (msg : String)
deriving DecidableEq

/-- Evaluation of the generator as a fallible call: the body of
`Displacer.__call__` contains no `raise` statement and no precondition check,
and the numpy scalar operations it uses signal division by zero by producing
NaN values rather than raising, so the call always returns normally. -/
noncomputable def Displacer.evaluateE {n : ℕ} (d : Displacer n) (α : ℂ) :
    Except PyErr (Matrix (Fin n) (Fin n) ℂ) :=
  Except.ok (d.call α)

/-- Decides whether an `Except` value is a normal return. -/
def exceptOk {ε α : Type _} : Except ε α → Bool
  | Except.ok _ => true
  | Except.error _ => false

/-- Phase-scale vector as the specification words it: entry `k` is
`i^(k mod 4)`. -/
def specPhaseScale (n : ℕ) : Fin n → ℂ := fun k => Complex.I ^ (k.val % 4)

/-- Scaled eigenvector matrix as claim C2 words it:
`scaled_evecs[k, :] = phase_scale[k] * u^(-k) * evecs[k, :]` with
`phase_scale` the specification's `i^(k mod 4)` vector. -/
noncomputable def specScaledEvecs {n : ℕ} (d : Displacer n) (α : ℂ) :
    Matrix (Fin n) (Fin n) ℂ :=
  Matrix.of fun k p =>
    specPhaseScale n k * Displacer.phaseU α ^ (-(k.val : ℤ)) * (d.evecs k p : ℂ)

/-- Displacement matrix as claim C2 words it:
`D[p,q] = sum_k conj(scaled_evecs[k,p]) * diag[k] * scaled_evecs[k,q]`. -/
noncomputable def specD {n : ℕ} (d : Displacer n) (α : ℂ) :
    Matrix (Fin n) (Fin n) ℂ :=
  Matrix.of fun p q =>
    ∑ k, conj (specScaledEvecs d α k p) * d.diagvec α k * specScaledEvecs d α k q

/-- Concrete generator state of dimension 2: the exact eigensystem of
`trid 2 = [[0, 1], [1, 0]]`, with ascending eigenvalues `-1, 1` and
orthonormal eigenvector columns `(1,-1)/sqrt 2` and `(1,1)/sqrt 2`. -/
noncomputable def d2ex : Displacer 2 where
  evals := ![-1, 1]
  evecs := Matrix.of
    ![![Real.sqrt 2 / 2, Real.sqrt 2 / 2],
      ![-(Real.sqrt 2 / 2), Real.sqrt 2 / 2]]

/-- Concrete generator state of dimension 2 with the first eigenvector column
negated: another valid output of the eigensolver for the same matrix. -/
noncomputable def d2ex' : Displacer 2 where
  evals := ![-1, 1]
  evecs := Matrix.of
    ![![-(Real.sqrt 2 / 2), Real.sqrt 2 / 2],
      ![Real.sqrt 2 / 2, Real.sqrt 2 / 2]]

/-- Python's `np.arange(a, b)` for integer-valued endpoints (the source
creates these arrays with a float dtype, but every value is integral). -/
def pyArange (a b : ℤ) : List ℤ := (List.range (b - a).toNat).map fun (i : ℕ) => a + (i : ℤ)

/-- Python sequence-index resolution: a negative index counts from the end. -/
def pyIndex (len : ℕ) (i : ℤ) : ℤ := if i < 0 then i + len else i

/-- Semantics of `jax.ops.index_update(x, index[i], v)`: jax arrays are
immutable, so the function returns a fresh updated array and leaves `x`
untouched (the source's comment asserting in-place mutation is wrong). -/
def index_update (l : List ℤ) (i : ℤ) (v : ℤ) : List ℤ :=
  l.set (pyIndex l.length i).toNat v

/-- Message of the scipy `check_format` error that an inconsistent final
`indptr` value triggers. -/
def csrLastPtrMsg : String :=
  "Last value of index pointer should be less than the size of index and data arrays"

/-- Dense matrix denoted by a CSR `(data, indices, indptr)` triple: entry
`(i, j)` sums `data[k]` over `k` in `[indptr[i], indptr[i+1])` with
`indices[k] = j` (the `toarray()` conversion). -/
def csrDense (data : List ℝ) (ind ptr : List ℤ) : ℕ → ℕ → ℝ := fun i j =>
  ((List.range data.length).map fun (k : ℕ) =>
    if ptr.getD i 0 ≤ (k : ℤ) ∧ (k : ℤ) < ptr.getD (i + 1) 0 ∧
        ind.getD k 0 = (j : ℤ) then data.getD k 0 else 0).sum

/-- Modelled from scipy: construction of
`csr_matrix((data, indices, indptr), shape)` runs `check_format` with its
basic checks — non-negative shape, `len(indptr) == rows + 1`,
`indptr[0] == 0`, `len(indices) == len(data)`, and
`indptr[-1] <= len(indices)` — raising `ValueError` on the first violation,
and otherwise denotes the `csrDense` matrix. -/
def csr_matrix (data : List ℝ) (ind ptr : List ℤ) (shape : ℤ × ℤ) :
    Except PyErr (ℕ × (ℕ → ℕ → ℝ)) :=
  if shape.1 < 0 ∨ shape.2 < 0 then
    Except.error (PyErr.valueError "negative dimensions are not allowed")
  else if ptr.length ≠ shape.1.toNat + 1 then
    Except.error (PyErr.valueError "index pointer size is not one more than the number of rows")
  else if ptr.headD 0 ≠ 0 then
    Except.error (PyErr.valueError "index pointer should start with 0")
  else if ind.length ≠ data.length then
    Except.error (PyErr.valueError "indices and data should have the same size")
  else if ptr.getLastD 0 > (ind.length : ℤ) then
    Except.error (PyErr.valueError csrLastPtrMsg)
  else
    Except.ok (shape.1.toNat, csrDense data ind ptr)

/-- A Python number argument: an `int` (or `jnp.integer`) value, or a float
 (any non-integer number), distinguished by `isinstance` in the source. -/
inductive PyNum where
  | int (z : ℤ)
  | float (x : ℝ)

/-- Body of `destroy(N, full)`: reject non-integer `N`, build
`data = sqrt(arange(1, N))`, `ind = arange(1, N)`, `ptr = arange(N + 1)`,
call `index_update(ptr, index[-1], N - 1)` and discard its result (as the
source does — jax arrays are immutable), then build the CSR matrix; both
values of `full` denote the same entries, one sparse and one via
`toarray()`. -/
noncomputable def destroyPy (N : PyNum) (_full : Bool) :
    Except PyErr (ℕ × (ℕ → ℕ → ℝ)) :=
  match N with
  | PyNum.float _ =>
      Except.error (PyErr.valueError "Hilbert space dimension must be an integer value")
  | PyNum.int N =>
      let data : List ℝ := (pyArange 1 N).map fun (k : ℤ) => Real.sqrt (k : ℝ)
      let ind : List ℤ := pyArange 1 N
      let ptr : List ℤ := pyArange 0 (N + 1)
      let _discarded := index_update ptr (-1) (N - 1)
      csr_matrix data ind ptr (N, N)

/-- Body of `create(N, full)`: like `destroy` but with
`ind = arange(0, N - 1)` and the discarded update `index_update(ptr,
index[0], 0)`. -/
noncomputable def createPy (N : PyNum) (_full : Bool) :
    Except PyErr (ℕ × (ℕ → ℕ → ℝ)) :=
  match N with
  | PyNum.float _ =>
      Except.error (PyErr.valueError "Hilbert space dimension must be an integer value")
  | PyNum.int N =>
      let data : List ℝ := (pyArange 1 N).map fun (k : ℤ) => Real.sqrt (k : ℝ)
      let ind : List ℤ := pyArange 0 (N - 1)
      let ptr : List ℤ := pyArange 0 (N + 1)
      let _discarded := index_update ptr 0 0
      csr_matrix data ind ptr (N, N)

/-- Failure behaviour of `Displacer.__init__(n)`: the constructor body
performs no validation of its own, so failures arise only inside its
external calls, modelled from numpy and scipy. `np.arange(1, n)` and
`np.sqrt` accept any numeric argument (empty result for `n <= 1`);
`np.zeros(n)` raises `TypeError` for a non-integer `n` and `ValueError` for
a negative `n`; `scipy.linalg.eigh_tridiagonal(np.zeros(n), sym)` checks
`d.size == e.size + 1` (here `e.size = (n-1).toNat`, the length of `sym`),
which rejects exactly `n = 0`, and on success returns the eigensystem this
file abstracts by `Displacer.Valid`. -/
def displacerInitCheck (n : PyNum) : Except PyErr Unit :=
  match n with
  | PyNum.float _ =>
      Except.error (PyErr.typeError "float object cannot be interpreted as an integer")
  | PyNum.int z =>
      if z < 0 then
        Except.error (PyErr.valueError "negative dimensions are not allowed")
      else if z.toNat ≠ (z - 1).toNat + 1 then
        Except.error (PyErr.valueError "d must have one more element than e")
      else Except.ok ()

/-- Body of `squeeze(N, z)`: evaluate `destroy(N)` then `create(N)`
(propagating their exceptions in that order), form
`op = (1/2) * (conj(z) * a^2 - z * adag^2)` and return `expm(op)`. -/
noncomputable def squeezeE (N : PyNum) (z : ℂ) :
    Except PyErr ((m : ℕ) × Matrix (Fin m) (Fin m) ℂ) :=
  match destroyPy N false with
  | Except.error e => Except.error e
  | Except.ok a =>
    match createPy N false with
    | Except.error e => Except.error e
    | Except.ok ad =>
      let m := a.1
      let A : Matrix (Fin m) (Fin m) ℂ := Matrix.of fun i j => (a.2 i j : ℂ)
      let Ad : Matrix (Fin m) (Fin m) ℂ := Matrix.of fun i j => (ad.2 i j : ℂ)
      let op := (1 / 2 : ℂ) • (conj z • A ^ 2 - z • Ad ^ 2)
      Except.ok ⟨m, NormedSpace.exp ℂ op⟩

/-- Branch selected by the shape dispatch. -/
inductive PyBranch where
  | ket
  | dm
deriving DecidableEq

/-- Shape dispatch of `fidelity(a, b)`:
`if jnp.asarray(a).shape[1] >= 2 or jnp.asarray(b).shape[1] >= 2` with
Python's short-circuit `or`; reading `shape[1]` of a shape tuple without a
second axis raises `IndexError`. Shapes are modelled as the list of axis
lengths of `jnp.asarray` of the argument (a plain list or 1-D array has a
one-element shape). -/
def fidelityBranch (sa sb : List ℕ) : Except PyErr PyBranch :=
  match sa[1]? with
  | none => Except.error (PyErr.indexError "tuple index out of range")
  | some m =>
    if 2 ≤ m then Except.ok PyBranch.dm
    else
      match sb[1]? with
      | none => Except.error (PyErr.indexError "tuple index out of range")
      | some m2 =>
        if 2 ≤ m2 then Except.ok PyBranch.dm else Except.ok PyBranch.ket

/-- Shape dispatch of `expect(oper, state)`:
`if jnp.asarray(state).shape[1] >= 2`, reading only the state's shape. -/
def expectBranch (sstate : List ℕ) : Except PyErr PyBranch :=
  match sstate[1]? with
  | none => Except.error (PyErr.indexError "tuple index out of range")
  | some m => if 2 ≤ m then Except.ok PyBranch.dm else Except.ok PyBranch.ket

/-- Body of `_fidelity_ket(a, b)` for column-vector inputs:
`jnp.abs(jnp.dot(jnp.transpose(jnp.conjugate(a)), b)) ** 2`, a 1x1 array. -/
noncomputable def fidelity_ket {n : ℕ} (a b : Matrix (Fin n) (Fin 1) ℂ) :
    Matrix (Fin 1) (Fin 1) ℝ :=
  Matrix.of fun i j => Complex.abs (((a.map (starRingEnd ℂ))ᵀ * b) i j) ^ 2

/-! ### Helper lemmas -/

theorem pyArange_length (a b : ℤ) : (pyArange a b).length = (b - a).toNat := by
  simp [pyArange]

theorem pyArange_headD (a b : ℤ) (h : a < b) : (pyArange a b).headD 0 = a := by
  have h1 : (b - a).toNat = (b - a - 1).toNat + 1 := by omega
  rw [pyArange, h1, List.range_succ_eq_map]
  simp

theorem pyArange_getLastD (a b : ℤ) (h : a < b) :
    (pyArange a b).getLastD 0 = b - 1 := by
  have h1 : (b - a).toNat = (b - a - 1).toNat + 1 := by omega
  rw [pyArange, h1, List.range_succ, List.map_append]
  simp
  omega

theorem destroyPy_pos_err (N : ℤ) (h : 1 ≤ N) (full : Bool) :
    destroyPy (PyNum.int N) full = Except.error (PyErr.valueError csrLastPtrMsg) := by
  show csr_matrix _ _ _ _ = _
  rw [csr_matrix]
  rw [if_neg (by omega), if_neg ?hlen, if_neg ?hhead, if_neg ?hsize, if_pos ?hlast]
  case hlen =>
    rw [pyArange_length]
    omega
  case hhead =>
    rw [pyArange_headD 0 (N + 1) (by omega)]
    exact fun hc => hc rfl
  case hsize =>
    simp [List.length_map]
  case hlast =>
    rw [pyArange_getLastD 0 (N + 1) (by omega), pyArange_length]
    omega

theorem createPy_pos_err (N : ℤ) (h : 1 ≤ N) (full : Bool) :
    createPy (PyNum.int N) full = Except.error (PyErr.valueError csrLastPtrMsg) := by
  show csr_matrix _ _ _ _ = _
  rw [csr_matrix]
  rw [if_neg (by omega), if_neg ?hlen, if_neg ?hhead, if_neg ?hsize, if_pos ?hlast]
  case hlen =>
    rw [pyArange_length]
    omega
  case hhead =>
    rw [pyArange_headD 0 (N + 1) (by omega)]
    exact fun hc => hc rfl
  case hsize =>
    rw [pyArange_length, List.length_map, pyArange_length]
    omega
  case hlast =>
    rw [pyArange_getLastD 0 (N + 1) (by omega), pyArange_length]
    omega

/-! ### Claim C1 -/

/-- Claim C1 counterexample: at dimension 3 and index k = 2 the stored
phase-scale entry is `i^(2 mod 2) = 1`, not the claimed `i^(2 mod 4) = -1`. -/
theorem c1_counterexample :
    Displacer.t_scale 3 ⟨2, by omega⟩ ≠ specPhaseScale 3 ⟨2, by omega⟩ := by
  simp only [Displacer.t_scale, specPhaseScale]
  norm_num [pow_succ, Complex.I_sq]

/-- Claim C1 (amended): the precomputed phase-scale vector has entry
`phase_scale[k] = i^(k mod 2)`, alternating through the two values 1 and i
(not the four fourth roots of unity). -/
theorem c1_phase_scale (n : ℕ) (k : Fin n) :
    Displacer.t_scale n k = if k.val % 2 = 0 then 1 else Complex.I := by
  rcases Nat.mod_two_eq_zero_or_one k.val with h | h <;>
    simp [Displacer.t_scale, h]

/-! ### Claim C4 -/

/-- Claim C4 counterexample: evaluation at alpha = 0 returns normally (the
body of `__call__` performs no precondition check and contains no raise; in
floating point the 0/0 phase yields NaN entries, not an exception). -/
theorem c4_counterexample : exceptOk (Displacer.evaluateE d2ex 0) = true := rfl

/-- Claim C4 (amended): evaluation never fails — for every generator state
and every alpha, including alpha = 0, `__call__` returns a matrix; the
claimed `InvalidParameter` check does not exist in the code. -/
theorem c4_no_failure (n : ℕ) (d : Displacer n) (α : ℂ) :
    d.evaluateE α = Except.ok (d.call α) := rfl

/-! ### Claim C5 -/

/-- Claim C5 counterexample: `destroy(0)` succeeds (returning a 0x0 matrix)
even though 0 is not a positive integer, so no positivity validation
exists. -/
theorem c5_counterexample : exceptOk (destroyPy (PyNum.int 0) false) = true := rfl

/-- Claim C5 (amended): no operation checks for a positive dimension.
`destroy`/`create` validate only integrality — a non-integer `N` raises
`ValueError`, while `N = 0` passes validation and returns a 0x0 matrix —
and `Displacer.__init__` performs no dimension validation of its own: a
non-integer `n` fails with numpy's `TypeError`, a negative `n` with numpy's
`ValueError`, `n = 0` with the eigensolver's `ValueError` (all incidental
failures of the external calls, none a dedicated `InvalidDimension`), and
every integer `n >= 1` passes all those checks and constructs. -/
theorem c5_dimension_validation (x : ℝ) (full : Bool) :
    (destroyPy (PyNum.float x) full =
      Except.error (PyErr.valueError "Hilbert space dimension must be an integer value") ∧
     createPy (PyNum.float x) full =
      Except.error (PyErr.valueError "Hilbert space dimension must be an integer value") ∧
     exceptOk (destroyPy (PyNum.int 0) full) = true ∧
     exceptOk (createPy (PyNum.int 0) full) = true) ∧
    (displacerInitCheck (PyNum.float x) =
      Except.error (PyErr.typeError "float object cannot be interpreted as an integer") ∧
     displacerInitCheck (PyNum.int (-3)) =
      Except.error (PyErr.valueError "negative dimensions are not allowed") ∧
     displacerInitCheck (PyNum.int 0) =
      Except.error (PyErr.valueError "d must have one more element than e") ∧
     ∀ z : ℤ, 1 ≤ z → displacerInitCheck (PyNum.int z) = Except.ok ()) := by
  refine ⟨⟨rfl, rfl, rfl, rfl⟩, rfl, rfl, rfl, fun z hz => ?_⟩
  rw [displacerInitCheck]
  rw [if_neg (by omega), if_neg (by omega)]

/-- Claim C5 witness: the amended statement instantiated at the non-integer
dimension 1/2, with the successful-construction clause applied at n = 4. -/
theorem c5_witness :
    displacerInitCheck (PyNum.float (1 / 2)) =
      Except.error (PyErr.typeError "float object cannot be interpreted as an integer") ∧
    (1 : ℤ) ≤ 4 ∧ displacerInitCheck (PyNum.int 4) = Except.ok () :=
  ⟨(c5_dimension_validation (1 / 2) true).2.1, by omega,
    (c5_dimension_validation (1 / 2) true).2.2.2.2 4 (by omega)⟩

/-! ### Claim C6 -/

/-- Claim C6: contrary to the claim (and to the code's own docstrings and
comments), `destroy(2)` and `create(2)` do not denote ladder matrices: both
raise scipy's `ValueError`, because the result of `jax.ops.index_update` is
discarded, leaving `indptr = [0, 1, 2]` whose final value 2 exceeds the
length 1 of the data array. -/
theorem c6_destroy_create_raise :
    destroyPy (PyNum.int 2) false = Except.error (PyErr.valueError csrLastPtrMsg) ∧
    createPy (PyNum.int 2) false = Except.error (PyErr.valueError csrLastPtrMsg) :=
  ⟨destroyPy_pos_err 2 (by omega) false, createPy_pos_err 2 (by omega) false⟩

/-! ### Claim C7 -/

/-- Claim C7 counterexample: `squeeze(3, 1)` does not return a matrix
exponential — it propagates the `ValueError` raised inside `destroy(3)`. -/
theorem c7_counterexample :
    squeezeE (PyNum.int 3) 1 = Except.error (PyErr.valueError csrLastPtrMsg) := by
  rw [squeezeE, destroyPy_pos_err 3 (by omega) false]

/-- Claim C7 (amended): for every dimension N >= 1 and every complex z,
`squeeze(N, z)` fails with the `ValueError` propagated from `destroy(N)`
(see C6) and returns no matrix. -/
theorem c7_squeeze_raises (N : ℤ) (h : 1 ≤ N) (z : ℂ) :
    squeezeE (PyNum.int N) z = Except.error (PyErr.valueError csrLastPtrMsg) := by
  rw [squeezeE, destroyPy_pos_err N h false]

/-- Claim C7 witness: the amended statement instantiated at N = 3,
z = i. -/
theorem c7_witness :
    (1 : ℤ) ≤ 3 ∧
    squeezeE (PyNum.int 3) Complex.I = Except.error (PyErr.valueError csrLastPtrMsg) :=
  ⟨by omega, c7_squeeze_raises 3 (by omega) Complex.I⟩

/-! ### Claim C10 -/

/-- Claim C10 counterexample: with a ket-shaped first argument `(3, 1)` and a
density-matrix-shaped second argument `(3, 3)`, `fidelity` takes the
density-matrix branch even though the first argument's second axis has
length 1 — the dispatch also consults the second argument. -/
theorem c10_counterexample :
    fidelityBranch [3, 1] [3, 3] = Except.ok PyBranch.dm ∧
    [3, 1][1]? = some 1 ∧ ¬(2 ≤ 1) :=
  ⟨rfl, rfl, by omega⟩

/-- Claim C10 (amended): a first (resp. state) argument without a second
axis makes the call fail with the out-of-range shape access; `expect` takes
the density-matrix branch exactly when the state's second axis exists with
length >= 2; `fidelity` takes it exactly when the first argument's second
axis has length >= 2, or the first argument's second axis has length < 2 and
the second argument's second axis exists with length >= 2. -/
theorem c10_dispatch (sa sb : List ℕ) :
    (sa[1]? = none →
      fidelityBranch sa sb = Except.error (PyErr.indexError "tuple index out of range")) ∧
    (expectBranch sa = Except.error (PyErr.indexError "tuple index out of range") ↔
      sa[1]? = none) ∧
    (expectBranch sa = Except.ok PyBranch.dm ↔ ∃ m, sa[1]? = some m ∧ 2 ≤ m) ∧
    (fidelityBranch sa sb = Except.ok PyBranch.dm ↔
      (∃ m, sa[1]? = some m ∧ 2 ≤ m) ∨
      (∃ m m2, sa[1]? = some m ∧ m < 2 ∧ sb[1]? = some m2 ∧ 2 ≤ m2)) := by
  cases hsa : sa[1]? with
  | none =>
    simp [fidelityBranch, expectBranch, hsa]
  | some m =>
    cases hsb : sb[1]? with
    | none =>
      rcases le_or_lt 2 m with hm | hm
      · simp [fidelityBranch, expectBranch, hsa, hsb, hm]
      · simp [fidelityBranch, expectBranch, hsa, hsb, hm, Nat.not_le.mpr hm]
    | some m2 =>
      rcases le_or_lt 2 m with hm | hm
      · simp [fidelityBranch, expectBranch, hsa, hsb, hm]
      · rcases le_or_lt 2 m2 with hm2 | hm2
        · simp [fidelityBranch, expectBranch, hsa, hsb, Nat.not_le.mpr hm, hm2]
          omega
        · simp [fidelityBranch, expectBranch, hsa, hsb, Nat.not_le.mpr hm,
            Nat.not_le.mpr hm2]

/-- Claim C10 witness: the amended dispatch characterization applied to the
one-dimensional shapes `[3]` and `[4]`. -/
theorem c10_witness :
    fidelityBranch [3] [3] = Except.error (PyErr.indexError "tuple index out of range") ∧
    expectBranch [4] = Except.error (PyErr.indexError "tuple index out of range") :=
  ⟨(c10_dispatch [3] [3]).1 rfl, ((c10_dispatch [4] [3]).2.1).mpr rfl⟩

/-! ### Claim C9 -/

/-- Claim C9: for a normalized ket (column vector with `a^dagger a = 1`), the
dispatch selects the ket branch on the column shape `(n, 1)` and the ket
fidelity of the state with itself is exactly 1. -/
theorem c9_self_fidelity (n : ℕ) (a : Matrix (Fin n) (Fin 1) ℂ)
    (h : aᴴ * a = 1) :
    fidelityBranch [n, 1] [n, 1] = Except.ok PyBranch.ket ∧
    fidelity_ket a a = 1 := by
  refine ⟨rfl, ?_⟩
  have hmap : (a.map (starRingEnd ℂ))ᵀ = aᴴ := by
    ext i j
    simp [Matrix.conjTranspose_apply, Matrix.map_apply]
  ext i j
  have hi : i = 0 := Subsingleton.elim i 0
  have hj : j = 0 := Subsingleton.elim j 0
  subst hi hj
  simp [fidelity_ket, hmap, h, Matrix.one_apply_eq]

/-- Claim C9 witness: the length-1 ket `[1]` is normalized and has
self-fidelity 1. -/
theorem c9_witness :
    ((1 : Matrix (Fin 1) (Fin 1) ℂ)ᴴ * 1 = 1) ∧
    (fidelityBranch [1, 1] [1, 1] = Except.ok PyBranch.ket ∧
      fidelity_ket (1 : Matrix (Fin 1) (Fin 1) ℂ) 1 = 1) :=
  ⟨by simp, c9_self_fidelity 1 1 (by simp)⟩

/-! ### Displacer algebra -/

theorem map_ofReal_mul {n : ℕ} (A B : Matrix (Fin n) (Fin n) ℝ) :
    (A * B).map Complex.ofReal = A.map Complex.ofReal * B.map Complex.ofReal := by
  ext i j
  simp only [Matrix.map_apply, Matrix.mul_apply]
  push_cast
  rfl

theorem Displacer.Valid.evecsC_tr_mul {n : ℕ} {d : Displacer n} (h : d.Valid) :
    (d.evecsC)ᵀ * d.evecsC = 1 := by
  have h1 := congrArg (fun M => Matrix.map M Complex.ofReal) h.1
  simp only at h1
  rw [map_ofReal_mul, Matrix.transpose_map] at h1
  rw [Displacer.evecsC]
  rw [h1]
  ext i j
  by_cases hij : i = j <;> simp [Matrix.one_apply, hij]

theorem Displacer.Valid.evecsC_mul_tr {n : ℕ} {d : Displacer n} (h : d.Valid) :
    d.evecsC * (d.evecsC)ᵀ = 1 :=
  Matrix.mul_eq_one_comm.mp h.evecsC_tr_mul

theorem Displacer.Valid.evecsC_inv {n : ℕ} {d : Displacer n} (h : d.Valid) :
    (d.evecsC)⁻¹ = (d.evecsC)ᵀ :=
  Matrix.inv_eq_left_inv h.evecsC_tr_mul

theorem Displacer.Valid.isUnit_evecsC {n : ℕ} {d : Displacer n} (h : d.Valid) :
    IsUnit d.evecsC :=
  ⟨⟨d.evecsC, (d.evecsC)ᵀ, h.evecsC_mul_tr, h.evecsC_tr_mul⟩, rfl⟩

theorem Displacer.Valid.spectralC {n : ℕ} {d : Displacer n} (h : d.Valid) :
    d.evecsC * Matrix.diagonal (fun k => (d.evals k : ℂ)) * (d.evecsC)ᵀ = tridC n := by
  have h1 := congrArg (fun M => Matrix.map M Complex.ofReal) h.2.1
  simp only at h1
  rw [map_ofReal_mul, map_ofReal_mul, Matrix.transpose_map,
    Matrix.diagonal_map Complex.ofReal_zero] at h1
  exact h1

theorem Displacer.Valid.diag_exp {n : ℕ} {d : Displacer n} (h : d.Valid) (c : ℂ) :
    d.evecsC * Matrix.diagonal (fun k => Complex.exp (c * (d.evals k : ℂ))) * (d.evecsC)ᵀ
      = NormedSpace.exp ℂ (c • tridC n) := by
  have h1 : Matrix.diagonal (fun k => Complex.exp (c * (d.evals k : ℂ)))
      = NormedSpace.exp ℂ (Matrix.diagonal fun k => c * (d.evals k : ℂ)) := by
    rw [Matrix.exp_diagonal, Pi.exp_def]
    funext k
    rw [← Complex.exp_eq_exp_ℂ]
  have h2 : d.evecsC * Matrix.diagonal (fun k => c * (d.evals k : ℂ)) * (d.evecsC)ᵀ
      = c • tridC n := by
    have hdg : Matrix.diagonal (fun k => c * (d.evals k : ℂ))
        = c • Matrix.diagonal (fun k => (d.evals k : ℂ)) := by
      rw [show (fun k => c * (d.evals k : ℂ)) = c • fun k => (d.evals k : ℂ) from rfl,
        Matrix.diagonal_smul]
    rw [hdg, mul_smul_comm, smul_mul_assoc, h.spectralC]
  rw [h1]
  rw [show (d.evecsC)ᵀ = (d.evecsC)⁻¹ from h.evecsC_inv.symm]
  rw [← Matrix.exp_conj ℂ d.evecsC _ h.isUnit_evecsC]
  rw [show (d.evecsC)⁻¹ = (d.evecsC)ᵀ from h.evecsC_inv]
  rw [h2]

theorem Displacer.call_eq_diag_exp {n : ℕ} {d : Displacer n} (h : d.Valid) (α : ℂ) :
    d.call α = Matrix.diagonal (fun k => conj (Displacer.transform n α k)) *
      NormedSpace.exp ℂ ((Complex.I * (Complex.abs α : ℝ)) • tridC n) *
      Matrix.diagonal (Displacer.transform n α) := by
  have hconj : (d.scaledEvecs α).map (starRingEnd ℂ)
      = Matrix.diagonal (fun k => conj (Displacer.transform n α k)) * d.evecsC := by
    ext i j
    simp [Displacer.scaledEvecs, Matrix.map_apply, Matrix.diagonal_mul,
      Displacer.evecsC, Complex.conj_ofReal]
  have htrans : (d.scaledEvecs α)ᵀ
      = (d.evecsC)ᵀ * Matrix.diagonal (Displacer.transform n α) := by
    rw [Displacer.scaledEvecs, Matrix.transpose_mul, Matrix.diagonal_transpose]
  rw [Displacer.call, hconj, htrans]
  rw [show Matrix.diagonal (d.diagvec α)
      = Matrix.diagonal (fun k =>
          Complex.exp ((Complex.I * (Complex.abs α : ℝ)) * (d.evals k : ℂ))) from rfl]
  rw [← h.diag_exp (Complex.I * (Complex.abs α : ℝ))]
  simp only [Matrix.mul_assoc]

theorem sqrt2_half_mul : Real.sqrt 2 / 2 * (Real.sqrt 2 / 2) = 1 / 2 := by
  rw [div_mul_div_comm, Real.mul_self_sqrt (by norm_num)]
  norm_num

theorem d2ex_valid : d2ex.Valid := by
  have hs := sqrt2_half_mul
  refine ⟨?_, ?_, ?_⟩
  · ext i j
    fin_cases i <;> fin_cases j <;>
      simp [d2ex, Matrix.mul_apply, Fin.sum_univ_two, Matrix.one_apply,
        Matrix.transpose_apply, Matrix.vecHead, Matrix.vecTail] <;>
      nlinarith [hs]
  · ext i j
    fin_cases i <;> fin_cases j <;>
      simp [d2ex, Matrix.mul_apply, Fin.sum_univ_two, Matrix.vecMul_diagonal, trid, sym,
        Real.sqrt_one, Matrix.transpose_apply, Matrix.vecHead, Matrix.vecTail] <;>
      nlinarith [hs]
  · intro a b hab
    fin_cases a <;> fin_cases b <;> simp_all [d2ex]

theorem d2ex'_valid : d2ex'.Valid := by
  have hs := sqrt2_half_mul
  refine ⟨?_, ?_, ?_⟩
  · ext i j
    fin_cases i <;> fin_cases j <;>
      simp [d2ex', Matrix.mul_apply, Fin.sum_univ_two, Matrix.one_apply,
        Matrix.transpose_apply, Matrix.vecHead, Matrix.vecTail] <;>
      nlinarith [hs]
  · ext i j
    fin_cases i <;> fin_cases j <;>
      simp [d2ex', Matrix.mul_apply, Fin.sum_univ_two, Matrix.vecMul_diagonal, trid, sym,
        Real.sqrt_one, Matrix.transpose_apply, Matrix.vecHead, Matrix.vecTail] <;>
      nlinarith [hs]
  · intro a b hab
    fin_cases a <;> fin_cases b <;> simp_all [d2ex']

/-! ### Claim C8 -/

/-- Claim C8: evaluation is deterministic and pure — the same generator and
alpha always produce the same matrix (the `__call__` body mutates no stored
state), and any two valid generator states of the same dimension produce
identical matrices for the same nonzero alpha (the result depends only on
the dimension and alpha, not on the eigensolver's basis choices). -/
theorem c8_deterministic_pure {n : ℕ} (d1 d2 : Displacer n)
    (h1 : d1.Valid) (h2 : d2.Valid) (α : ℂ) (hα : α ≠ 0) :
    d1.call α = d1.call α ∧ d1.call α = d2.call α :=
  ⟨rfl, by rw [Displacer.call_eq_diag_exp h1 α, Displacer.call_eq_diag_exp h2 α]⟩

/-- Claim C8 witness: the two concrete dimension-2 eigensystems (differing
by an eigenvector sign flip) evaluate identically at alpha = 1. -/
theorem c8_witness :
    d2ex.Valid ∧ d2ex'.Valid ∧ (1 : ℂ) ≠ 0 ∧
    (d2ex.call 1 = d2ex.call 1 ∧ d2ex.call 1 = d2ex'.call 1) :=
  ⟨d2ex_valid, d2ex'_valid, one_ne_zero,
    c8_deterministic_pure d2ex d2ex' d2ex_valid d2ex'_valid 1 one_ne_zero⟩

theorem trid_transpose (n : ℕ) : (trid n)ᵀ = trid n := by
  ext i j
  simp only [Matrix.transpose_apply, trid, Matrix.of_apply]
  by_cases h1 : j.val + 1 = i.val <;> by_cases h2 : i.val + 1 = j.val <;>
    simp [h1, h2] <;> omega

theorem tridC_conjTranspose (n : ℕ) : (tridC n)ᴴ = tridC n := by
  ext i j
  have h := congrFun (congrFun (trid_transpose n) i) j
  rw [Matrix.transpose_apply] at h
  simp only [Matrix.conjTranspose_apply, tridC, Matrix.map_apply, RCLike.star_def,
    Complex.conj_ofReal]
  exact_mod_cast h

theorem signDiag_mul_self (n : ℕ) :
    Matrix.diagonal (fun k : Fin n => (-1 : ℂ) ^ k.val) *
      Matrix.diagonal (fun k : Fin n => (-1 : ℂ) ^ k.val) = 1 := by
  rw [Matrix.diagonal_mul_diagonal]
  have h : (fun k : Fin n => (-1 : ℂ) ^ k.val * (-1 : ℂ) ^ k.val) = fun _ => 1 := by
    funext k
    rw [← pow_add]
    exact Even.neg_one_pow ⟨k.val, rfl⟩
  rw [h, Matrix.diagonal_one]

theorem signDiag_trid (n : ℕ) :
    Matrix.diagonal (fun k : Fin n => (-1 : ℂ) ^ k.val) * tridC n *
      Matrix.diagonal (fun k : Fin n => (-1 : ℂ) ^ k.val) = -(tridC n) := by
  ext i j
  rw [Matrix.mul_diagonal, Matrix.diagonal_mul, Matrix.neg_apply]
  have key : ∀ m : ℕ, (-1 : ℂ) ^ m * (-1 : ℂ) ^ (m + 1) = -1 := by
    intro m
    rw [← pow_add]
    exact Odd.neg_one_pow ⟨m, by omega⟩
  by_cases h1 : i.val + 1 = j.val
  · have hpow : (-1 : ℂ) ^ i.val * (-1 : ℂ) ^ j.val = -1 := by
      rw [← h1]
      exact key i.val
    simp only [tridC, Matrix.map_apply, trid, Matrix.of_apply, h1, if_true]
    calc (-1 : ℂ) ^ i.val * ((sym j.val : ℝ) : ℂ) * (-1 : ℂ) ^ j.val
        = ((sym j.val : ℝ) : ℂ) * ((-1 : ℂ) ^ i.val * (-1 : ℂ) ^ j.val) := by ring
      _ = -((sym j.val : ℝ) : ℂ) := by rw [hpow]; ring
  · by_cases h2 : j.val + 1 = i.val
    · have hpow : (-1 : ℂ) ^ i.val * (-1 : ℂ) ^ j.val = -1 := by
        rw [← h2, mul_comm]
        exact key j.val
      simp only [tridC, Matrix.map_apply, trid, Matrix.of_apply, h1, if_false, h2, if_true]
      calc (-1 : ℂ) ^ i.val * ((sym i.val : ℝ) : ℂ) * (-1 : ℂ) ^ j.val
          = ((sym i.val : ℝ) : ℂ) * ((-1 : ℂ) ^ i.val * (-1 : ℂ) ^ j.val) := by ring
        _ = -((sym i.val : ℝ) : ℂ) := by rw [hpow]; ring
    · simp [tridC, trid, h1, h2]

theorem phaseU_neg (α : ℂ) : Displacer.phaseU (-α) = -Displacer.phaseU α := by
  rw [Displacer.phaseU, Displacer.phaseU, Complex.abs.map_neg, neg_div]

theorem neg_one_zpow_neg_natCast (k : ℕ) : (-1 : ℂ) ^ (-(k : ℤ)) = (-1 : ℂ) ^ k := by
  rw [zpow_neg, zpow_natCast, ← inv_pow, inv_neg_one]

theorem transform_neg (n : ℕ) (α : ℂ) (k : Fin n) :
    Displacer.transform n (-α) k = (-1 : ℂ) ^ k.val * Displacer.transform n α k := by
  rw [Displacer.transform, Displacer.transform, phaseU_neg]
  rw [show -Displacer.phaseU α = -1 * Displacer.phaseU α by ring]
  rw [mul_zpow, neg_one_zpow_neg_natCast]
  ring

theorem starI_mul_abs (α : ℂ) :
    star (Complex.I * ((Complex.abs α : ℝ) : ℂ)) =
      -(Complex.I * ((Complex.abs α : ℝ) : ℂ)) := by
  rw [star_mul', RCLike.star_def, Complex.conj_I, Complex.conj_ofReal]
  ring

theorem Displacer.call_conjTranspose {n : ℕ} {d : Displacer n} (h : d.Valid) (α : ℂ) :
    (d.call α)ᴴ = Matrix.diagonal (fun k => conj (Displacer.transform n α k)) *
      NormedSpace.exp ℂ (-((Complex.I * (Complex.abs α : ℝ)) • tridC n)) *
      Matrix.diagonal (Displacer.transform n α) := by
  rw [Displacer.call_eq_diag_exp h α]
  simp only [Matrix.conjTranspose_mul]
  rw [Matrix.diagonal_conjTranspose, Matrix.diagonal_conjTranspose]
  have hstar1 : star (fun k => conj (Displacer.transform n α k))
      = Displacer.transform n α := by
    funext k
    simp
  have hstar2 : star (Displacer.transform n α)
      = fun k => conj (Displacer.transform n α k) := by
    funext k
    simp [Pi.star_apply, RCLike.star_def]
  rw [hstar1, hstar2]
  rw [← Matrix.exp_conjTranspose]
  rw [Matrix.conjTranspose_smul, tridC_conjTranspose, starI_mul_abs, neg_smul]
  simp only [Matrix.mul_assoc]

theorem phaseU_normSq {α : ℂ} (hα : α ≠ 0) :
    Complex.normSq (Displacer.phaseU α) = 1 := by
  have habs : Complex.abs α ≠ 0 := Complex.abs.ne_zero hα
  rw [Displacer.phaseU, map_div₀, Complex.normSq_ofReal, ← Complex.sq_abs, sq]
  exact div_self (mul_ne_zero habs habs)

theorem transform_mul_conj {n : ℕ} {α : ℂ} (hα : α ≠ 0) (k : Fin n) :
    Displacer.transform n α k * conj (Displacer.transform n α k) = 1 := by
  rw [Complex.mul_conj]
  have h : Complex.normSq (Displacer.transform n α k) = 1 := by
    rw [Displacer.transform, map_mul, Displacer.t_scale, map_pow, Complex.normSq_I,
      one_pow, one_mul, map_zpow₀, phaseU_normSq hα, one_zpow]
  rw [h, Complex.ofReal_one]

theorem diag_transform_mul_conj {n : ℕ} {α : ℂ} (hα : α ≠ 0) :
    Matrix.diagonal (Displacer.transform n α) *
      Matrix.diagonal (fun k => conj (Displacer.transform n α k)) = 1 := by
  rw [Matrix.diagonal_mul_diagonal]
  have h : (fun k : Fin n => Displacer.transform n α k * conj (Displacer.transform n α k))
      = fun _ => 1 := funext fun k => transform_mul_conj hα k
  rw [h, Matrix.diagonal_one]

theorem diag_conj_mul_transform {n : ℕ} {α : ℂ} (hα : α ≠ 0) :
    Matrix.diagonal (fun k => conj (Displacer.transform n α k)) *
      Matrix.diagonal (Displacer.transform n α) = 1 := by
  rw [Matrix.diagonal_mul_diagonal]
  have h : (fun k : Fin n => conj (Displacer.transform n α k) * Displacer.transform n α k)
      = fun _ => 1 := funext fun k => by rw [mul_comm]; exact transform_mul_conj hα k
  rw [h, Matrix.diagonal_one]

theorem exp_mul_exp_neg {n : ℕ} (M : Matrix (Fin n) (Fin n) ℂ) :
    NormedSpace.exp ℂ M * NormedSpace.exp ℂ (-M) = 1 := by
  rw [← Matrix.exp_add_of_commute ℂ M (-M) ((Commute.refl M).neg_right)]
  rw [add_neg_cancel]
  exact NormedSpace.exp_zero

theorem signDiag_exp_flip (n : ℕ) (c : ℂ) :
    Matrix.diagonal (fun k : Fin n => (-1 : ℂ) ^ k.val) *
      NormedSpace.exp ℂ (c • tridC n) *
      Matrix.diagonal (fun k : Fin n => (-1 : ℂ) ^ k.val) =
      NormedSpace.exp ℂ (-(c • tridC n)) := by
  have hF1 := signDiag_mul_self n
  have hFinv : (Matrix.diagonal (fun k : Fin n => (-1 : ℂ) ^ k.val))⁻¹
      = Matrix.diagonal (fun k : Fin n => (-1 : ℂ) ^ k.val) :=
    Matrix.inv_eq_left_inv hF1
  have hFU : IsUnit (Matrix.diagonal (fun k : Fin n => (-1 : ℂ) ^ k.val)) :=
    ⟨⟨_, _, hF1, hF1⟩, rfl⟩
  have hmid : Matrix.diagonal (fun k : Fin n => (-1 : ℂ) ^ k.val) * (c • tridC n) *
      Matrix.diagonal (fun k : Fin n => (-1 : ℂ) ^ k.val) = -(c • tridC n) := by
    rw [mul_smul_comm, smul_mul_assoc, signDiag_trid, smul_neg]
  calc Matrix.diagonal (fun k : Fin n => (-1 : ℂ) ^ k.val) *
      NormedSpace.exp ℂ (c • tridC n) *
      Matrix.diagonal (fun k : Fin n => (-1 : ℂ) ^ k.val)
      = Matrix.diagonal (fun k : Fin n => (-1 : ℂ) ^ k.val) *
        NormedSpace.exp ℂ (c • tridC n) *
        (Matrix.diagonal (fun k : Fin n => (-1 : ℂ) ^ k.val))⁻¹ := by rw [hFinv]
    _ = NormedSpace.exp ℂ (Matrix.diagonal (fun k : Fin n => (-1 : ℂ) ^ k.val) *
        (c • tridC n) * (Matrix.diagonal (fun k : Fin n => (-1 : ℂ) ^ k.val))⁻¹) :=
      (Matrix.exp_conj ℂ _ _ hFU).symm
    _ = NormedSpace.exp ℂ (-(c • tridC n)) := by rw [hFinv, hmid]

theorem diag_transform_neg (n : ℕ) (α : ℂ) :
    Matrix.diagonal (Displacer.transform n (-α)) =
      Matrix.diagonal (fun k : Fin n => (-1 : ℂ) ^ k.val) *
        Matrix.diagonal (Displacer.transform n α) := by
  rw [Matrix.diagonal_mul_diagonal]
  exact congrArg Matrix.diagonal (funext fun k => transform_neg n α k)

theorem diag_conj_transform_neg (n : ℕ) (α : ℂ) :
    Matrix.diagonal (fun k => conj (Displacer.transform n (-α) k)) =
      Matrix.diagonal (fun k => conj (Displacer.transform n α k)) *
        Matrix.diagonal (fun k : Fin n => (-1 : ℂ) ^ k.val) := by
  rw [Matrix.diagonal_mul_diagonal]
  refine congrArg Matrix.diagonal (funext fun k => ?_)
  rw [transform_neg, map_mul]
  have hconjf : conj ((-1 : ℂ) ^ k.val) = (-1 : ℂ) ^ k.val := by
    rw [map_pow]
    norm_num
  rw [hconjf]
  ring

/-! ### Claim C3 -/

/-- Claim C3: for every valid generator state and nonzero alpha the returned
matrix is exactly unitary, and its conjugate transpose equals the matrix for
-alpha (exact equality implies the claimed 1e-8 numerical tolerance). -/
theorem c3_unitary_adjoint {n : ℕ} (d : Displacer n) (hd : d.Valid) (α : ℂ)
    (hα : α ≠ 0) :
    d.call α * (d.call α)ᴴ = 1 ∧ (d.call α)ᴴ = d.call (-α) := by
  constructor
  · rw [Displacer.call_conjTranspose hd α, Displacer.call_eq_diag_exp hd α]
    set A := Matrix.diagonal (fun k => conj (Displacer.transform n α k)) with hA
    set C := Matrix.diagonal (Displacer.transform n α) with hC
    set X := NormedSpace.exp ℂ ((Complex.I * (Complex.abs α : ℝ)) • tridC n) with hX
    set Y := NormedSpace.exp ℂ (-((Complex.I * (Complex.abs α : ℝ)) • tridC n)) with hY
    calc (A * X * C) * (A * Y * C)
        = A * (X * ((C * A) * (Y * C))) := by simp only [Matrix.mul_assoc]
      _ = A * (X * (Y * C)) := by rw [hC, hA, diag_transform_mul_conj hα, Matrix.one_mul]
      _ = A * ((X * Y) * C) := by rw [Matrix.mul_assoc]
      _ = A * C := by rw [hX, hY, exp_mul_exp_neg, Matrix.one_mul]
      _ = 1 := by rw [hA, hC]; exact diag_conj_mul_transform hα
  · rw [Displacer.call_conjTranspose hd α, Displacer.call_eq_diag_exp hd (-α)]
    rw [Complex.abs.map_neg]
    rw [diag_transform_neg, diag_conj_transform_neg]
    rw [← signDiag_exp_flip n (Complex.I * (Complex.abs α : ℝ))]
    simp only [Matrix.mul_assoc]

/-- Claim C3 witness: the concrete dimension-2 eigensystem at alpha = 1. -/
theorem c3_witness :
    d2ex.Valid ∧ (1 : ℂ) ≠ 0 ∧
    (d2ex.call 1 * (d2ex.call 1)ᴴ = 1 ∧ (d2ex.call 1)ᴴ = d2ex.call (-1)) :=
  ⟨d2ex_valid, one_ne_zero, c3_unitary_adjoint d2ex d2ex_valid 1 one_ne_zero⟩

theorem Displacer.call_apply {n : ℕ} (d : Displacer n) (α : ℂ) (p q : Fin n) :
    d.call α p q =
      ∑ k, conj (d.scaledEvecs α p k) * d.diagvec α k * d.scaledEvecs α q k := by
  rw [Displacer.call, Matrix.mul_apply]
  refine Finset.sum_congr rfl fun k _ => ?_
  rw [Matrix.map_apply, Matrix.diagonal_mul, Matrix.transpose_apply]
  ring

theorem abs_piHalfC : Complex.abs ((Real.pi / 2 : ℝ) : ℂ) = Real.pi / 2 := by
  rw [Complex.abs_ofReal]
  exact abs_of_pos (by positivity)

theorem piHalfC_ne_zero : ((Real.pi / 2 : ℝ) : ℂ) ≠ 0 := by
  rw [Ne, Complex.ofReal_eq_zero]
  positivity

theorem phaseU_piHalfC : Displacer.phaseU ((Real.pi / 2 : ℝ) : ℂ) = 1 := by
  rw [Displacer.phaseU, abs_piHalfC]
  exact div_self piHalfC_ne_zero

theorem transform_piHalfC_zero :
    Displacer.transform 2 ((Real.pi / 2 : ℝ) : ℂ) 0 = 1 := by
  rw [Displacer.transform, Displacer.t_scale]
  norm_num

theorem transform_piHalfC_one :
    Displacer.transform 2 ((Real.pi / 2 : ℝ) : ℂ) 1 = Complex.I := by
  rw [Displacer.transform, Displacer.t_scale, phaseU_piHalfC]
  norm_num

theorem diagvec_piHalfC_zero :
    d2ex.diagvec ((Real.pi / 2 : ℝ) : ℂ) 0 = -Complex.I := by
  rw [Displacer.diagvec, abs_piHalfC]
  rw [show d2ex.evals 0 = -1 by simp [d2ex]]
  rw [show Complex.I * ((Real.pi / 2 : ℝ) : ℂ) * ((-1 : ℝ) : ℂ)
      = ((-(Real.pi / 2) : ℝ) : ℂ) * Complex.I by push_cast; ring]
  rw [Complex.exp_mul_I, ← Complex.ofReal_cos, ← Complex.ofReal_sin]
  rw [Real.cos_neg, Real.sin_neg, Real.cos_pi_div_two, Real.sin_pi_div_two]
  push_cast
  ring

theorem diagvec_piHalfC_one :
    d2ex.diagvec ((Real.pi / 2 : ℝ) : ℂ) 1 = Complex.I := by
  rw [Displacer.diagvec, abs_piHalfC]
  rw [show d2ex.evals 1 = 1 by simp [d2ex]]
  rw [show Complex.I * ((Real.pi / 2 : ℝ) : ℂ) * ((1 : ℝ) : ℂ)
      = ((Real.pi / 2 : ℝ) : ℂ) * Complex.I by push_cast; ring]
  rw [Complex.exp_mul_I, ← Complex.ofReal_cos, ← Complex.ofReal_sin]
  rw [Real.cos_pi_div_two, Real.sin_pi_div_two]
  push_cast
  ring

theorem scaledEvecs_d2ex_apply (p k : Fin 2) :
    d2ex.scaledEvecs ((Real.pi / 2 : ℝ) : ℂ) p k
      = Displacer.transform 2 ((Real.pi / 2 : ℝ) : ℂ) p * ((d2ex.evecs p k : ℝ) : ℂ) := by
  rw [Displacer.scaledEvecs, Matrix.diagonal_mul, Displacer.evecsC, Matrix.map_apply]

theorem sqrt2_mul_self_C :
    ((Real.sqrt 2 : ℝ) : ℂ) * ((Real.sqrt 2 : ℝ) : ℂ) = 2 := by
  have h : Real.sqrt 2 * Real.sqrt 2 = 2 := Real.mul_self_sqrt (by norm_num)
  calc ((Real.sqrt 2 : ℝ) : ℂ) * ((Real.sqrt 2 : ℝ) : ℂ)
      = ((Real.sqrt 2 * Real.sqrt 2 : ℝ) : ℂ) := by push_cast; ring
    _ = ((2 : ℝ) : ℂ) := by rw [h]
    _ = 2 := by push_cast; ring

theorem c2_code_entry :
    d2ex.call ((Real.pi / 2 : ℝ) : ℂ) 0 1 = -1 := by
  rw [Displacer.call_apply, Fin.sum_univ_two]
  simp only [scaledEvecs_d2ex_apply, transform_piHalfC_zero, transform_piHalfC_one,
    diagvec_piHalfC_zero, diagvec_piHalfC_one]
  rw [show d2ex.evecs 0 0 = Real.sqrt 2 / 2 by simp [d2ex]]
  rw [show d2ex.evecs 0 1 = Real.sqrt 2 / 2 by simp [d2ex]]
  rw [show d2ex.evecs 1 0 = -(Real.sqrt 2 / 2) by simp [d2ex]]
  rw [show d2ex.evecs 1 1 = Real.sqrt 2 / 2 by simp [d2ex]]
  simp only [map_mul, Complex.conj_ofReal, map_one]
  push_cast
  linear_combination (-1 / 2 : ℂ) * sqrt2_mul_self_C +
    ((Real.sqrt 2 : ℝ) : ℂ) * ((Real.sqrt 2 : ℝ) : ℂ) / 2 * Complex.I_sq

theorem c2_spec_entry :
    specD d2ex ((Real.pi / 2 : ℝ) : ℂ) 0 1 = -Complex.I := by
  rw [specD]
  rw [Matrix.of_apply, Fin.sum_univ_two]
  simp only [specScaledEvecs, Matrix.of_apply, specPhaseScale,
    diagvec_piHalfC_zero, diagvec_piHalfC_one, phaseU_piHalfC]
  rw [show d2ex.evecs 0 0 = Real.sqrt 2 / 2 by simp [d2ex]]
  rw [show d2ex.evecs 0 1 = Real.sqrt 2 / 2 by simp [d2ex]]
  rw [show d2ex.evecs 1 0 = -(Real.sqrt 2 / 2) by simp [d2ex]]
  rw [show d2ex.evecs 1 1 = Real.sqrt 2 / 2 by simp [d2ex]]
  norm_num [map_mul, Complex.conj_ofReal, Complex.conj_I, one_zpow, map_ofNat,
    map_inv₀]
  linear_combination ((Real.sqrt 2 : ℝ) : ℂ) * ((Real.sqrt 2 : ℝ) : ℂ) / 4 *
    Complex.I * Complex.I_sq + (-Complex.I / 2) * sqrt2_mul_self_C

/-! ### Claim C2 -/

/-- Claim C2 counterexample: at the valid dimension-2 eigensystem and
alpha = pi/2, the matrix the claim's formula
`D[p,q] = sum_k conj(scaled_evecs[k,p]) * diag[k] * scaled_evecs[k,q]`
denotes differs from the matrix the code returns (their (0,1) entries are
-i and -1 respectively): the claim transposes the indices of the scaled
eigenvector matrix. -/
theorem c2_counterexample :
    d2ex.Valid ∧ ((Real.pi / 2 : ℝ) : ℂ) ≠ 0 ∧
    specD d2ex ((Real.pi / 2 : ℝ) : ℂ) ≠ d2ex.call ((Real.pi / 2 : ℝ) : ℂ) := by
  refine ⟨d2ex_valid, piHalfC_ne_zero, fun h => ?_⟩
  have h1 : specD d2ex ((Real.pi / 2 : ℝ) : ℂ) 0 1
      = d2ex.call ((Real.pi / 2 : ℝ) : ℂ) 0 1 := by rw [h]
  rw [c2_spec_entry, c2_code_entry] at h1
  have h2 := congrArg Complex.im h1
  simp at h2

/-- Claim C2 (amended): the returned matrix satisfies, entrywise,
`D[p,q] = sum_k conj(scaled_evecs[p,k]) * diag[k] * scaled_evecs[q,k]`
(indices of the scaled eigenvector matrix transposed relative to the claim),
where `scaled_evecs[k,:] = t_scale[k] * u^(-k) * evecs[k,:]` with
`t_scale[k] = i^(k mod 2)`, `u = alpha/|alpha|`, and
`diag[k] = exp(i * |alpha| * evals[k])`. -/
theorem c2_entrywise {n : ℕ} (d : Displacer n) (α : ℂ) (p q : Fin n) :
    d.call α p q =
      ∑ k, conj (d.scaledEvecs α p k) * d.diagvec α k * d.scaledEvecs α q k :=
  Displacer.call_apply d α p q
